import Mathlib

/-!
Verification of `mailpile/mail_source/imap.py` (Mailpile's IMAP mail source).

The Python source is shallowly embedded below: each definition mirrors one
function or code path of the source file.  Machine behaviour that Python
leaves implicit (exceptions such as `IndexError`, `TypeError` and
`AttributeError`) is made explicit with `Except` / error inductives.
-/

/-! ## Section 1: the response tokenizer `_parse_imap` (imap.py lines 21-69)

The regex `IMAP_TOKEN` matches, in order of alternation:
`"[^"]*"` (a quoted string), `[()]` (a single paren), `[^()"\s]+` (a bare
atom run), `\s+` (a whitespace run).  `re.match` anchors at the start of
the remaining line; when no alternative matches (an unterminated quote)
the inner loop breaks and the rest of the line is discarded.
-/

/-- Python 2 `\s` on a byte string: space, tab, newline, carriage return,
vertical tab, form feed. -/
def isPyWS (c : Char) : Bool :=
  c = ' ' || c = '\t' || c = '\n' || c = '\r' || c = '\x0b' || c = '\x0c'

/-- A character that can appear in a bare atom: anything except parens,
the double quote and whitespace (the regex class `[^()"\s]`). -/
def isAtomChar (c : Char) : Bool :=
  !(c = '(' || c = ')' || c = '"' || isPyWS c)

/-- Scan for the closing `"` of a quoted string: returns the content before
it and the remainder after it, or `none` when the quote is unterminated
(the regex `"[^"]*"` then fails to match). -/
def splitQuote : List Char → Option (List Char × List Char)
  | [] => none
  | c :: rest =>
    if c = '"' then some ([], rest)
    else
      match splitQuote rest with
      | some (content, r) => some (c :: content, r)
      | none => none

/-- One token produced by the `IMAP_TOKEN` regex.  `other` covers both bare
atoms and whitespace runs: the Python loop distinguishes them only by the
token's first character when deciding whether to append. -/
inductive ImapTok where
  | quoted (content : List Char)
  | lpar
  | rpar
  | other (run : List Char)
deriving Repr, DecidableEq

/-- Fuel-indexed tokenizer loop; each emitted token consumes at least one
character, so fuel equal to the line length suffices. -/
def tokGo : Nat → List Char → List ImapTok
  | 0, _ => []
  | _, [] => []
  | fuel + 1, c :: rest =>
    if c = '"' then
      match splitQuote rest with
      | some (content, rest') => .quoted content :: tokGo fuel rest'
      | none => []
    else if c = '(' then .lpar :: tokGo fuel rest
    else if c = ')' then .rpar :: tokGo fuel rest
    else if isPyWS c then
      .other (c :: rest.takeWhile isPyWS) :: tokGo fuel (rest.dropWhile isPyWS)
    else
      .other (c :: rest.takeWhile isAtomChar) :: tokGo fuel (rest.dropWhile isAtomChar)

/-- Tokenize one reply line with the `IMAP_TOKEN` regex loop. -/
def tokenizeLine (l : List Char) : List ImapTok :=
  tokGo l.length l

/-- A parsed element: a bare atom / stripped quoted string, or a
parenthesized group. -/
inductive PData where
  | atom (s : String)
  | group (elems : List PData)

/-- Parser state: `cur` is the list currently appended to (`pdata`), and
`stack` holds the enclosing lists (innermost first). -/
structure PState where
  stack : List (List PData)
  cur : List PData

/-- Python runtime errors that the embedded code can raise. -/
inductive PyErr where
  | indexError
  | typeError
  | attributeError
deriving Repr, DecidableEq

/-- Process one token exactly as the body of the `while` loop in
`_parse_imap` does.  A `)` with an empty stack models Python's
`stack.pop(-1)` raising `IndexError`. -/
def stepTok (st : PState) (t : ImapTok) : Except PyErr PState :=
  match t with
  | .quoted content => .ok ⟨st.stack, st.cur ++ [.atom ⟨content⟩]⟩
  | .lpar => .ok ⟨st.cur :: st.stack, []⟩
  | .rpar =>
    match st.stack with
    | [] => .error .indexError
    | parent :: rest => .ok ⟨rest, parent ++ [.group st.cur]⟩
  | .other run =>
    match run with
    | c :: _ =>
      if c = ' ' || c = '\t' || c = '\n' || c = '\r' then .ok st
      else .ok ⟨st.stack, st.cur ++ [.atom ⟨run⟩]⟩
    | [] => .ok ⟨st.stack, st.cur ++ [.atom ""]⟩

/-- Fold the token stream through `stepTok`, propagating a raised error. -/
def foldToks : PState → List ImapTok → Except PyErr PState
  | st, [] => .ok st
  | st, t :: ts =>
    match stepTok st t with
    | .ok st' => foldToks st' ts
    | .error e => .error e

/-- ASCII uppercasing of one character, as Python 2 `str.upper` does. -/
def pyUpperChar (c : Char) : Char :=
  if 'a' ≤ c ∧ c ≤ 'z' then Char.ofNat (c.toNat - 32) else c

/-- `reply[0].upper() == 'OK'`. -/
def statusOk (s : String) : Bool :=
  s.data.map pyUpperChar == ['O', 'K']

/-- `_parse_imap(reply)`: tokenize every line of `reply[1]` through one
shared parser state, then pair the uppercased-status test with the final
`pdata` (note: the final *current* list, which for unbalanced open parens
is the innermost open group, not the root). -/
def parseImap (reply : String × List String) : Except PyErr (Bool × List PData) :=
  match foldToks ⟨[], []⟩ ((reply.2.map (fun s => tokenizeLine s.data)).flatten) with
  | .ok st => .ok (statusOk reply.1, st.cur)
  | .error e => .error e

/-- The number of unclosed open-paren groups never goes negative along the
token stream: scanning left to right from an initial depth, every `rpar`
finds a matching enclosing group.  This is exactly the condition under
which `stack.pop(-1)` cannot raise. -/
def noUnderflow : List ImapTok → Nat → Bool
  | [], _ => true
  | .lpar :: ts, d => noUnderflow ts (d + 1)
  | .rpar :: ts, d =>
    match d with
    | 0 => false
    | d' + 1 => noUnderflow ts d'
  | _ :: ts, d => noUnderflow ts d

/-- The token stream of a whole reply (all lines, one shared parser state). -/
def replyToks (lines : List String) : List ImapTok :=
  (lines.map (fun s => tokenizeLine s.data)).flatten

/-! ## Section 2: `SharedImapConn` select caching (imap.py lines 82-151)

The connection state holds `_selected : Option ((mailbox, readonly),
select reply, info map)`.  The transport (`self._conn`, an `imaplib`
connection) is modelled by its reply functions; the third component of
`connSelect`'s result counts how many `SELECT` commands reached the
transport in this call (0 or 1). -/

/-- An IMAP reply as imaplib returns it: `(status, data lines)`. -/
abbrev ImapReply := String × List String

/-- `rv[0].upper() == 'OK'`. -/
def replyOk (r : ImapReply) : Bool := statusOk r.1

/-- The underlying `imaplib` transport, by its observable replies:
`selectReply m ro` is what `self._conn.select(mailbox=m, readonly=ro)`
returns, `response m code` is `self._conn.response(code)[1]` right after a
successful select of `m`, and `cmdReply` is the reply of the forwarded
command itself. -/
structure ImapTransport where
  selectReply : String → Bool → ImapReply
  response : String → String → List String
  cmdReply : ImapReply

/-- The folder-info map built on a successful select:
`dict(self._conn.response(f) for f in ('FLAGS','EXISTS','RECENT','UIDVALIDITY'))`. -/
def mkInfo (tr : ImapTransport) (mb : String) : List (String × List String) :=
  [("FLAGS", tr.response mb "FLAGS"),
   ("EXISTS", tr.response mb "EXISTS"),
   ("RECENT", tr.response mb "RECENT"),
   ("UIDVALIDITY", tr.response mb "UIDVALIDITY")]

/-- `dict.get(k, default)` over the folder-info map. -/
def dictGet (m : List (String × List String)) (k : String) (d : List String) :
    List String :=
  match m with
  | [] => d
  | (k', v) :: rest => if k = k' then v else dictGet rest k d

/-- The mutable state of a `SharedImapConn` that `select` touches:
`_selected = ((mailbox, readonly), rv, info)` or `None`. -/
structure ConnSt where
  selected : Option ((String × Bool) × ImapReply × List (String × List String))

/-- `SharedImapConn.select(mailbox, readonly)` (lines 133-148).  Returns the
reply, the state after the call, and the number of `SELECT` commands sent
to the transport. -/
def connSelect (tr : ImapTransport) (st : ConnSt) (mb : String) (ro : Bool) :
    ImapReply × ConnSt × Nat :=
  match st.selected with
  | some (key, rv, _info) =>
    if key = (mb, ro) then (rv, st, 0)
    else
      let rv' := tr.selectReply mb ro
      if replyOk rv' then (rv', ⟨some ((mb, ro), rv', mkInfo tr mb)⟩, 1)
      else (rv', st, 1)
  | none =>
    let rv' := tr.selectReply mb ro
    if replyOk rv' then (rv', ⟨some ((mb, ro), rv', mkInfo tr mb)⟩, 1)
    else (rv', st, 1)

/-- `SharedImapConn.mailbox_info(k, default)` (lines 150-151):
`self._selected[2].get(k, default)`.  When nothing is selected,
`self._selected` is `None` and subscripting it raises `TypeError`. -/
def mailboxInfo (st : ConnSt) (k : String) (default : List String) :
    Except PyErr (List String) :=
  match st.selected with
  | none => .error .typeError
  | some (_, _, info) => .ok (dictGet info k default)

/-- The `mailbox` handling of a proxied command (lines 100-115): run the
cached select first; abort with its reply when not OK, otherwise forward
the command.  Returns (reply, state, number of transport SELECTs). -/
def proxyWithMailbox (tr : ImapTransport) (st : ConnSt) (mb : String) :
    ImapReply × ConnSt × Nat :=
  let (rv, st', n) := connSelect tr st mb false
  if replyOk rv then (tr.cmdReply, st', n) else (rv, st', n)

/-- A sequence of `count` forwarded commands issued within one lock hold,
all with the same `mailbox` option: final state and total number of
transport SELECTs. -/
def runSeq (tr : ImapTransport) (st : ConnSt) (mb : String) :
    Nat → ConnSt × Nat
  | 0 => (st, 0)
  | count + 1 =>
    let (_, st', n) := proxyWithMailbox tr st mb
    let (st'', m) := runSeq tr st' mb count
    (st'', n + m)

/-- A transport whose `SELECT` always fails. -/
def trAlwaysNo : ImapTransport :=
  ⟨fun _ _ => ("NO", ["SELECT failed"]), fun _ _ => [], ("OK", [])⟩

/-- A transport whose every command succeeds and which reports
`UIDVALIDITY = ["13"]` for every folder. -/
def trAllOk : ImapTransport :=
  ⟨fun _ _ => ("OK", ["1"]),
   fun _ code => if code = "UIDVALIDITY" then ["13"] else ["x"],
   ("OK", [])⟩

/-! ## Section 3: `SharedImapMailbox.remove` and attribute lookup
(imap.py lines 93-95 and 235-239)

`__init__` installs proxies only for the nine method names listed below;
`store` is not among them and `SharedImapConn` defines no `store` method
(nor does `threading.Thread`), so the attribute access `imap.store` in
`remove` raises `AttributeError` before any command is sent. -/

/-- The command names proxied to the transport in
`SharedImapConn.__init__` (lines 93-94). -/
def forwardedMethods : List String :=
  ["append", "add", "capability", "fetch", "noop",
   "list", "login", "search", "uid"]

/-- The methods defined on the `SharedImapConn` class itself. -/
def sharedConnClassMethods : List String :=
  ["close", "select", "mailbox_info", "quit", "run",
   "_mk_proxy", "_start_idling", "_stop_idling"]

/-- Public attributes inherited from `threading.Thread` (Python 2). -/
def threadAttrs : List String :=
  ["start", "join", "is_alive", "isAlive", "getName", "setName",
   "isDaemon", "setDaemon", "name", "daemon", "ident"]

/-- Attribute lookup on a `SharedImapConn` instance. -/
def connHasAttr (s : String) : Bool :=
  s ∈ forwardedMethods || s ∈ sharedConnClassMethods || s ∈ threadAttrs

/-- `SharedImapMailbox.remove(key)` (lines 235-239): evaluates the
attribute access `imap.store` before anything is sent; `key` is never
consulted.  Since the attribute does not exist, the call raises. -/
def mailboxRemove (_key : String) : Except PyErr Unit :=
  if connHasAttr "store" then .ok () else .error .attributeError

/-! ## Section 4: chunked body fetch in `SharedImapMailbox.get`
(imap.py lines 256-277)

`chunk_size = self.source.timeout * 1024`; the loop runs over
`range(0, 1 + msg_bytes // chunk_size)` and requests
`BODY[]<chunk*chunk_size . chunk_size>`.  A partial-body fetch of the
range `[o, o+l)` of a message returns the corresponding slice of its
bytes (empty when `o` is past the end). -/

/-- The number of partial-body fetches `get` issues:
`1 + msg_bytes // chunk_size` iterations of the loop. -/
def chunkCount (timeout msgBytes : Nat) : Nat :=
  1 + msgBytes / (timeout * 1024)

/-- The chunk payloads returned by the transport for each request
`BODY[]<c*cs . cs>`, in loop order.  `msg` is the stored message body
(a byte string), `msgBytes` the size reported by `RFC822.SIZE`. -/
def fetchChunks (timeout : Nat) (msg : List Nat) (msgBytes : Nat) :
    List (List Nat) :=
  (List.range (chunkCount timeout msgBytes)).map
    (fun c => ((msg.drop (c * (timeout * 1024))).take (timeout * 1024)))

/-- `''.join(msg_data)`: the body returned by `get`. -/
def getBody (timeout : Nat) (msg : List Nat) (msgBytes : Nat) : List Nat :=
  (fetchChunks timeout msg msgBytes).flatten

/-! ## Section 5: `iterkeys` and base-36 keys (imap.py lines 291-298)

`iterkeys` emits `'%s.%s' % (b36(int(validity)), b36(int(k))) for k in
sorted(data)` where `data` is the token list of the `UID SEARCH ALL`
reply — a list of decimal *strings*, which Python's `sorted` orders
lexicographically bytewise.

`b36` lives in `mailpile/util.py`, which is not part of this tree. -/

/-- Digit character for a value below the base (0-9 then lowercase a-z). -/
def baseDigitChar (d : Nat) : Char :=
  if d < 10 then Char.ofNat (48 + d) else Char.ofNat (87 + d)

/-- Fuel-indexed digit emission, most significant digit first; fuel `n`
suffices for the value `n` because the value strictly shrinks under
division by a base `≥ 2`. -/
def baseDigitsGo (base : Nat) : Nat → Nat → List Char → List Char
  | 0, _, acc => acc
  | fuel + 1, n, acc =>
    if n = 0 then acc
    else baseDigitsGo base fuel (n / base) (baseDigitChar (n % base) :: acc)

/-- Specification helper mirroring `baseDigitsGo`'s recursion on the value
side: the number whose base-`base` digits are those of `a` followed by
those of `n` (used to relate digit emission to digit folding). -/
def pushBGo (base : Nat) : Nat → Nat → Nat → Nat
  | 0, a, _ => a
  | fuel + 1, a, n =>
    if n = 0 then a
    else base * pushBGo base fuel a (n / base) + n % base

/-- Modelled from the spec: `b36` (from the absent `mailpile/util.py`)
renders a non-negative integer in base 36, digits `0-9a-z`, per the
spec's key grammar and its concrete example `b36(100) = "2s"`. -/
def b36 (n : Nat) : String :=
  if n = 0 then "0" else ⟨baseDigitsGo 36 n n []⟩

/-- Decimal rendering of a non-negative integer (how a UID or a
UIDVALIDITY value appears in the server's reply tokens). -/
def decStr (n : Nat) : String :=
  if n = 0 then "0" else ⟨baseDigitsGo 10 n n []⟩

/-- Value of one base-`base` digit character, accepting `0-9`, `a-z` and
`A-Z` as Python's `int(s, base)` does; `none` when out of range. -/
def digitVal? (base : Nat) (c : Char) : Option Nat :=
  let v :=
    if '0' ≤ c ∧ c ≤ '9' then some (c.toNat - 48)
    else if 'a' ≤ c ∧ c ≤ 'z' then some (c.toNat - 87)
    else if 'A' ≤ c ∧ c ≤ 'Z' then some (c.toNat - 55)
    else none
  match v with
  | some d => if d < base then some d else none
  | none => none

/-- Left fold accumulating digit values, assuming all digits valid. -/
def digitsFold (base : Nat) (a : Nat) (l : List Char) : Nat :=
  l.foldl (fun a c => base * a + ((digitVal? base c).getD 0)) a

/-- `int(s, base)`: `some` of the value when `s` is a non-empty string of
valid digits, `none` otherwise (Python raises `ValueError`). -/
def parseInt? (base : Nat) (s : String) : Option Nat :=
  if s.data ≠ [] ∧ s.data.all (fun c => (digitVal? base c).isSome) then
    some (digitsFold base 0 s.data)
  else none

/-- `int(s)` on a well-formed decimal token (total; callers only apply it
to decimal renderings). -/
def intDec (s : String) : Nat := digitsFold 10 0 s.data

/-- Python 2 bytewise-lexicographic string comparison (`a <= b`), the
order `sorted` uses on the reply tokens: equal leading bytes recurse,
otherwise the byte values decide. -/
def lexLeB : List Char → List Char → Bool
  | [], _ => true
  | _ :: _, [] => false
  | a :: as, b :: bs =>
    if a.toNat = b.toNat then lexLeB as bs
    else decide (a.toNat < b.toNat)

/-- The `Prop` form of `lexLeB` on strings. -/
def strLe (a b : String) : Prop := lexLeB a.data b.data = true

instance : DecidableRel strLe := fun a b => by
  unfold strLe; infer_instance

instance : IsTotal String strLe where
  total a b := by
    have H : ∀ as bs : List Char, lexLeB as bs = true ∨ lexLeB bs as = true := by
      intro as
      induction as with
      | nil => intro bs; left; rfl
      | cons x xs ih =>
        intro bs
        cases bs with
        | nil => right; rfl
        | cons y ys =>
          simp only [lexLeB]
          by_cases hxy : x.toNat = y.toNat
          · rw [if_pos hxy, if_pos hxy.symm]
            exact ih ys
          · rw [if_neg hxy, if_neg (fun h => hxy h.symm)]
            simp only [decide_eq_true_eq]
            omega
    exact H a.data b.data

instance : IsTrans String strLe where
  trans a b c hab hbc := by
    have H : ∀ as bs cs : List Char, lexLeB as bs = true → lexLeB bs cs = true →
        lexLeB as cs = true := by
      intro as
      induction as with
      | nil => intro bs cs _ _; rfl
      | cons x xs ih =>
        intro bs cs h1 h2
        cases bs with
        | nil => exact absurd h1 (by simp [lexLeB])
        | cons y ys =>
          cases cs with
          | nil => exact absurd h2 (by simp [lexLeB])
          | cons z zs =>
            simp only [lexLeB] at h1 h2 ⊢
            by_cases hxy : x.toNat = y.toNat
            · rw [if_pos hxy] at h1
              by_cases hyz : y.toNat = z.toNat
              · rw [if_pos hyz] at h2
                rw [if_pos (hxy.trans hyz)]
                exact ih ys zs h1 h2
              · rw [if_neg hyz] at h2
                have hlt : y.toNat < z.toNat := by simpa using h2
                rw [if_neg (by omega)]
                simp only [decide_eq_true_eq]
                omega
            · rw [if_neg hxy] at h1
              have hlt1 : x.toNat < y.toNat := by simpa using h1
              by_cases hyz : y.toNat = z.toNat
              · rw [if_neg (by omega)]
                simp only [decide_eq_true_eq]
                omega
              · rw [if_neg hyz] at h2
                have hlt2 : y.toNat < z.toNat := by simpa using h2
                rw [if_neg (by omega)]
                simp only [decide_eq_true_eq]
                omega
    exact H a.data b.data c.data hab hbc

/-- Python's `sorted` on reply tokens: the (unique, by antisymmetry of the
bytewise order) ascending lexicographic permutation. -/
def pySorted (l : List String) : List String :=
  List.insertionSort strLe l

/-- `SharedImapMailbox.iterkeys` (lines 291-298), given the folder's
UIDVALIDITY token `validity` and the `UID SEARCH ALL` reply tokens
`data`. -/
def iterkeysModel (validity : String) (data : List String) : List String :=
  (pySorted data).map (fun k => b36 (intDec validity) ++ "." ++ b36 (intDec k))

/-- The raw UID encoded in an emitted key: the base-36 value after the
first `.`. -/
def keyUid (k : String) : Nat :=
  digitsFold 36 0 ((k.data.dropWhile (fun c => !(c = '.'))).drop 1)

/-! ## Section 6: `ImapMailSource._unlocked_open`, bad-login path
(imap.py lines 31-35 and 379-474)

The whole login sequence sits inside one `try` whose handlers are, in
order: `except TimedOut`, `except (IMAP_IOError, IMAP4.error)`,
`except (IOError, AttributeError, socket.error)`.  The deliberate
`raise throw(...)` on a bad login is raised *inside* that `try`, so when
the caller's `throw` class is one of the caught classes, the handler
catches it, overwrites `conn_error`, and the bottom of the function
re-raises `throw` with the overwritten message. -/

/-- Python exception classes relevant to `_unlocked_open`'s handlers. -/
inductive PyExcClass where
  | timedOut
  | imapIOError
  | imap4Error
  | ioError
  | attributeError
  | socketError
  | valueError
deriving Repr, DecidableEq

/-- Which handler of `_unlocked_open` catches an exception of this class,
and the `conn_error` message that handler records (`none` = uncaught,
the exception propagates).  `IMAP_IOError` subclasses `IOError`, but the
`(IMAP_IOError, IMAP4.error)` clause is listed first. -/
def handlerMsg : PyExcClass → Option String
  | .timedOut => some "Connection timed out"
  | .imapIOError => some "An IMAP protocol error occurred"
  | .imap4Error => some "An IMAP protocol error occurred"
  | .ioError => some "A network error occurred"
  | .attributeError => some "A network error occurred"
  | .socketError => some "A network error occurred"
  | .valueError => none

/-- `WithaBool(v)` (lines 31-35): `__nonzero__` and `__enter__` both
return `v`. -/
structure WithaBool where
  v : Bool

/-- `WithaBool.__enter__`. -/
def WithaBool.enter (w : WithaBool) : Bool := w.v

/-- `WithaBool.__nonzero__` (Python truthiness). -/
def WithaBool.nonzero (w : WithaBool) : Bool := w.v

/-- What `_unlocked_open` does, observably. -/
inductive OpenRes where
  | conn (capabilities : List String)
  | sentinel (w : WithaBool)
  | raised (cls : PyExcClass) (msg : String)

/-- `_unlocked_open(conn_cls, throw)` from the point where the transport
has been constructed and `login` is issued (lines 410-474), driven by
the transport's `login` reply.  Returns the outcome together with the
final `event.data['conn_error']` slot (cleared on entry, line 410-411).
Capabilities handling after a successful login is elided to the
uppercased token set, which this claim set does not inspect further. -/
def unlockedOpen (throw : Option PyExcClass) (loginReply : ImapReply) :
    OpenRes × Option String :=
  match parseImap loginReply with
  | .error _ => (.raised .ioError "unmodelled", none)
  | .ok (ok, _data) =>
    if ok then (.conn [], none)
    else
      -- event.data['conn_error'] = _('Bad username or password')
      let connError := "Bad username or password"
      match throw with
      | none => (.sentinel ⟨false⟩, some connError)
      | some cls =>
        -- `raise throw(event.data['conn_error'])` inside the try block
        match handlerMsg cls with
        | none => (.raised cls connError, some connError)
        | some msg =>
          -- the handler catches the raise and overwrites conn_error,
          -- then the bottom `if throw: raise throw(...)` re-raises
          (.raised cls msg, some msg)

/-! ## Section 7: message pointers, `quote`/`unquote`
(imap.py lines 303-307)

`get_msg_ptr` and `get_file_by_ptr` use `urllib.quote` / `urllib.unquote`
(Python 2 standard library, modelled from their documented behaviour over
byte strings) and the constant `MBX_ID_LEN` from `mailpile/mailutils.py`,
which is not part of this tree. -/

/-- Modelled from the spec: `MBX_ID_LEN`, the fixed width of a mailbox id
(the spec's round-trip scenario uses the 4-character id `"0000"`). -/
def MBX_ID_LEN : Nat := 4

/-- `urllib.always_safe` plus the default `safe='/'`: characters `quote`
leaves unescaped. -/
def isQuoteSafe (c : Char) : Bool :=
  ('A' ≤ c && c ≤ 'Z') || ('a' ≤ c && c ≤ 'z') || ('0' ≤ c && c ≤ '9') ||
    c = '_' || c = '.' || c = '-' || c = '/'

/-- Uppercase hex digit, as in `'%%%02X' % i`. -/
def hexDigitU (d : Nat) : Char :=
  if d < 10 then Char.ofNat (48 + d) else Char.ofNat (55 + d)

/-- `urllib.quote` of one byte. -/
def quoteChar (c : Char) : List Char :=
  if isQuoteSafe c then [c]
  else ['%', hexDigitU (c.toNat / 16), hexDigitU (c.toNat % 16)]

/-- `urllib.quote(s)` over a byte string. -/
def pyQuote (s : List Char) : List Char :=
  (s.map quoteChar).flatten

/-- Value of one hex digit (both cases), `none` when not a hex digit. -/
def hexVal? (c : Char) : Option Nat :=
  if '0' ≤ c ∧ c ≤ '9' then some (c.toNat - 48)
  else if 'a' ≤ c ∧ c ≤ 'f' then some (c.toNat - 87)
  else if 'A' ≤ c ∧ c ≤ 'F' then some (c.toNat - 55)
  else none

/-- `urllib.unquote(s)`: decode each `%XX` hex escape; a `%` not followed
by two hex digits stays literal and scanning resumes right after it
(equivalent to Python 2's split-on-`%` implementation). -/
def pyUnquote : List Char → List Char
  | [] => []
  | c :: rest =>
    if c = '%' then
      match rest with
      | c1 :: c2 :: rest' =>
        match hexVal? c1, hexVal? c2 with
        | some h1, some h2 => Char.ofNat (16 * h1 + h2) :: pyUnquote rest'
        | _, _ => '%' :: pyUnquote (c1 :: c2 :: rest')
      | [c1] => ['%', c1]
      | [] => ['%']
    else c :: pyUnquote rest

/-- `SharedImapMailbox.get_msg_ptr(mboxid, key)` (lines 303-304):
`'%s%s' % (mboxid, quote(key))`. -/
def getMsgPtr (mboxid key : List Char) : List Char :=
  mboxid ++ pyQuote key

/-- The key `SharedImapMailbox.get_file_by_ptr(msg_ptr)` (lines 306-307)
passes to `get_file`: `unquote(msg_ptr[MBX_ID_LEN:])`. -/
def ptrKey (msgPtr : List Char) : List Char :=
  pyUnquote (msgPtr.drop MBX_ID_LEN)

/-- `get_file_by_ptr` relative to an abstract `get_file`. -/
def getFileByPtr {α : Type} (getFile : List Char → α) (msgPtr : List Char) : α :=
  getFile (ptrKey msgPtr)

/-! # Theorems

First the helper lemmas shared between claims, then one theorem per
claim (with its witness / counterexample theorems). -/

/-- Folding the token stream cannot raise while the running count of
close parens never exceeds the count of open parens: `stepTok` only
errors on `rpar` with an empty stack, and `noUnderflow` tracks exactly
the stack depth. -/
theorem foldToks_ok_of_noUnderflow :
    ∀ (ts : List ImapTok) (stk : List (List PData)) (cur : List PData),
      noUnderflow ts stk.length = true →
      ∃ st', foldToks ⟨stk, cur⟩ ts = .ok st' := by
  intro ts
  induction ts with
  | nil => intro stk cur _; exact ⟨⟨stk, cur⟩, rfl⟩
  | cons t ts ih =>
    intro stk cur h
    cases t with
    | quoted content => exact ih stk (cur ++ [.atom ⟨content⟩]) h
    | lpar => exact ih (cur :: stk) [] h
    | rpar =>
      cases stk with
      | nil => simp [noUnderflow] at h
      | cons parent rest => exact ih rest (parent ++ [.group cur]) h
    | other run =>
      cases run with
      | nil => exact ih stk (cur ++ [.atom ""]) h
      | cons c cs =>
        show ∃ st', foldToks ⟨stk, cur⟩ (.other (c :: cs) :: ts) = .ok st'
        by_cases hc : (c = ' ' || c = '\t' || c = '\n' || c = '\r') = true
        · simp only [foldToks, stepTok, hc, if_true]
          exact ih stk cur h
        · simp only [foldToks, stepTok, hc, if_false, Bool.false_eq_true]
          exact ih stk (cur ++ [.atom ⟨c :: cs⟩]) h

/-- C6: `_parse_imap` maps the two normative examples to the documented
structures, and in every non-raising run the boolean component is true
exactly when the uppercased status word equals `OK`. -/
theorem parseImap_examples_and_ok_flag :
    parseImap ("OK", ["One (Two (Th ree)) \"Four Five\""]) =
      .ok (true, [.atom "One", .group [.atom "Two", .group [.atom "Th", .atom "ree"]],
                  .atom "Four Five"]) ∧
    parseImap ("BAD", ["Sorry"]) = .ok (false, [.atom "Sorry"]) ∧
    ∀ (s : String) (ls : List String) (b : Bool) (pd : List PData),
      parseImap (s, ls) = .ok (b, pd) → b = statusOk s := by
  refine ⟨by rfl, by rfl, ?_⟩
  intro s ls b pd h
  unfold parseImap at h
  cases hf : foldToks ⟨[], []⟩ ((ls.map (fun s => tokenizeLine s.data)).flatten) with
  | ok st =>
    rw [hf] at h
    simp only [Except.ok.injEq, Prod.mk.injEq] at h
    exact h.1.symm
  | error e => rw [hf] at h; cases h

/-- C6 witness: the ok-flag direction applied at the `BAD` example. -/
theorem parseImap_ok_flag_witness : false = statusOk "BAD" :=
  parseImap_examples_and_ok_flag.2.2 "BAD" ["Sorry"] false [.atom "Sorry"] (by rfl)

/-- C7 counterexample: an unmatched close parenthesis does not terminate
cleanly — `stack.pop(-1)` raises `IndexError`. -/
theorem parseImap_rpar_raises : parseImap ("OK", [")"]) = .error .indexError := by
  rfl

/-- C7 (amended): `_parse_imap` terminates cleanly on every input whose
token stream never has more close than open parens in any prefix; an
unmatched *open* paren is harmless, but the returned list is then the
partial content of the innermost open group. -/
theorem parseImap_total_of_noUnderflow :
    (∀ reply : String × List String, noUnderflow (replyToks reply.2) 0 = true →
      ∃ res, parseImap reply = .ok res) ∧
    parseImap ("OK", ["(A"]) = .ok (true, [.atom "A"]) := by
  constructor
  · intro reply h
    obtain ⟨st', hst⟩ :=
      foldToks_ok_of_noUnderflow (replyToks reply.2) [] [] h
    refine ⟨(statusOk reply.1, st'.cur), ?_⟩
    unfold parseImap
    rw [show (reply.2.map (fun s => tokenizeLine s.data)).flatten = replyToks reply.2
          from rfl, hst]
  · rfl

/-- C7 witness: totality applied at a concrete balanced-prefix input. -/
theorem parseImap_total_witness :
    ∃ res, parseImap ("OK", ["A (B (C)"]) = .ok res :=
  parseImap_total_of_noUnderflow.1 ("OK", ["A (B (C)"]) (by decide)

/-- C10: when the transport's select reply is not OK, `select` leaves the
cached Folder Selection State exactly as it was — a previously cached
selection for a different folder is retained, and nothing new is
installed. -/
theorem connSelect_failed_preserves_state
    (tr : ImapTransport) (st : ConnSt) (mb : String) (ro : Bool)
    (h : replyOk (tr.selectReply mb ro) = false) :
    (connSelect tr st mb ro).2.1 = st := by
  unfold connSelect
  cases hsel : st.selected with
  | none => simp [h]
  | some v =>
    obtain ⟨key, rv, info⟩ := v
    by_cases hk : key = (mb, ro)
    · simp [hk]
    · simp [hk, h]

/-- C10 witness: a failed select of INBOX retains the cached selection of
a different folder. -/
theorem connSelect_failed_preserves_state_witness :
    (connSelect trAlwaysNo ⟨some (("Other", false), ("OK", []), [])⟩
        "INBOX" false).2.1 =
      ⟨some (("Other", false), ("OK", []), [])⟩ :=
  connSelect_failed_preserves_state trAlwaysNo
    ⟨some (("Other", false), ("OK", []), [])⟩ "INBOX" false (by decide)

/-- C1 counterexample: with a transport whose SELECT always fails, two
forwarded commands in one lock hold with the same `mailbox` option issue
two server-side SELECTs for that folder — not at most one. -/
theorem runSeq_failed_select_two_selects :
    (runSeq trAlwaysNo ⟨none⟩ "INBOX" 2).2 = 2 ∧
    ¬ (runSeq trAlwaysNo ⟨none⟩ "INBOX" 2).2 ≤ 1 := by
  decide

/-- A `select` whose `(mailbox, readonly)` pair matches the cached
selection returns the cached reply without touching the transport. -/
theorem connSelect_cache_hit
    (tr : ImapTransport) (st : ConnSt) (mb : String) (ro : Bool)
    (rv : ImapReply) (info : List (String × List String))
    (hsel : st.selected = some ((mb, ro), rv, info)) :
    connSelect tr st mb ro = (rv, st, 0) := by
  unfold connSelect
  rw [hsel]
  simp

/-- A forwarded command whose cached select hits issues no SELECT and
preserves the state. -/
theorem proxy_cache_hit
    (tr : ImapTransport) (st : ConnSt) (mb : String)
    (rv : ImapReply) (info : List (String × List String))
    (hsel : st.selected = some ((mb, false), rv, info)) :
    proxyWithMailbox tr st mb =
      (if replyOk rv then tr.cmdReply else rv, st, 0) := by
  unfold proxyWithMailbox
  rw [connSelect_cache_hit tr st mb false rv info hsel]
  by_cases hrv : replyOk rv <;> simp [hrv]

/-- A fresh (or re-)select through a forwarded command, when the
transport's select succeeds, installs the cache and issues one SELECT. -/
theorem proxy_fresh_select
    (tr : ImapTransport) (st : ConnSt) (mb : String)
    (h : replyOk (tr.selectReply mb false) = true)
    (hmiss : ∀ rv info, st.selected = some ((mb, false), rv, info) → False) :
    proxyWithMailbox tr st mb =
      (tr.cmdReply, ⟨some ((mb, false), tr.selectReply mb false, mkInfo tr mb)⟩, 1) := by
  unfold proxyWithMailbox connSelect
  cases hsel : st.selected with
  | none => simp [h]
  | some v =>
    obtain ⟨key, rv, info⟩ := v
    have hk : ¬ key = (mb, false) := fun hk => hmiss rv info (by rw [hsel, hk])
    simp [hk, h]

/-- Unfolding one step of `runSeq`. -/
theorem runSeq_succ (tr : ImapTransport) (st : ConnSt) (mb : String) (n : Nat) :
    (runSeq tr st mb (n + 1)).2 =
      (proxyWithMailbox tr st mb).2.2 +
        (runSeq tr (proxyWithMailbox tr st mb).2.1 mb n).2 := by
  rcases hp : proxyWithMailbox tr st mb with ⟨r, st', k⟩
  rcases hr : runSeq tr st' mb n with ⟨st'', m⟩
  simp only [runSeq]
  rw [hp]
  simp [hr]

/-- While the cached selection is `(mb, false)`, forwarded commands with
`mailbox = mb` never contact the transport's select. -/
theorem runSeq_zero_of_selected
    (tr : ImapTransport) (mb : String) (st : ConnSt)
    (rv : ImapReply) (info : List (String × List String))
    (hsel : st.selected = some ((mb, false), rv, info)) :
    ∀ n, (runSeq tr st mb n).2 = 0 := by
  intro n
  induction n with
  | zero => rfl
  | succ n ih =>
    rw [runSeq_succ, proxy_cache_hit tr st mb rv info hsel]
    simpa using ih

/-- One forwarded command with `mailbox = mb` leaves the cache selecting
`(mb, false)` when the transport's select succeeds, and issues at most
one SELECT. -/
theorem proxy_step_selected
    (tr : ImapTransport) (st : ConnSt) (mb : String)
    (h : replyOk (tr.selectReply mb false) = true) :
    (∃ rv info,
      ((proxyWithMailbox tr st mb).2.1).selected = some ((mb, false), rv, info)) ∧
    (proxyWithMailbox tr st mb).2.2 ≤ 1 := by
  by_cases hhit : ∃ rv info, st.selected = some ((mb, false), rv, info)
  · obtain ⟨rv, info, hsel⟩ := hhit
    rw [proxy_cache_hit tr st mb rv info hsel]
    exact ⟨⟨rv, info, hsel⟩, by simp⟩
  · rw [proxy_fresh_select tr st mb h
        (fun rv info hsel => hhit ⟨rv, info, hsel⟩)]
    exact ⟨⟨tr.selectReply mb false, mkInfo tr mb, rfl⟩, by simp⟩

/-- C1 (amended): a `select` that matches the cached Folder Selection
State returns the cached reply and issues no transport select; and when
the transport's select of the folder succeeds, any sequence of forwarded
commands within one lock hold with the same `mailbox` option issues at
most one server-side SELECT.  (When selection *fails*, each command
retries the SELECT — see the counterexample.) -/
theorem select_cached_and_single_select :
    (∀ (tr : ImapTransport) (st : ConnSt) (mb : String) (ro : Bool) rv info,
      st.selected = some ((mb, ro), rv, info) →
      connSelect tr st mb ro = (rv, st, 0)) ∧
    (∀ (tr : ImapTransport) (st : ConnSt) (mb : String) (n : Nat),
      replyOk (tr.selectReply mb false) = true →
      (runSeq tr st mb n).2 ≤ 1) := by
  constructor
  · intro tr st mb ro rv info hsel
    unfold connSelect
    rw [hsel]
    simp
  · intro tr st mb n h
    cases n with
    | zero => simp [runSeq]
    | succ n =>
      obtain ⟨⟨rv, info, hsel⟩, hcount⟩ := proxy_step_selected tr st mb h
      have hrest := runSeq_zero_of_selected tr mb (proxyWithMailbox tr st mb).2.1
        rv info hsel n
      rw [runSeq_succ, hrest]
      omega

/-- C1 witness: the cached reply is returned with zero transport selects,
and three commands in a row issue at most one SELECT. -/
theorem select_cached_and_single_select_witness :
    connSelect trAllOk ⟨some (("INBOX", false), ("OK", ["1"]), [])⟩ "INBOX" false =
      (("OK", ["1"]), ⟨some (("INBOX", false), ("OK", ["1"]), [])⟩, 0) ∧
    (runSeq trAllOk ⟨none⟩ "INBOX" 3).2 ≤ 1 :=
  ⟨select_cached_and_single_select.1 trAllOk
      ⟨some (("INBOX", false), ("OK", ["1"]), [])⟩ "INBOX" false ("OK", ["1"]) [] rfl,
   select_cached_and_single_select.2 trAllOk ⟨none⟩ "INBOX" 3 (by decide)⟩

/-- C5 counterexample: with no folder selected, `mailbox_info` subscripts
`None` and raises `TypeError` — it does not return the default. -/
theorem mailboxInfo_none_raises :
    mailboxInfo ⟨none⟩ "UIDVALIDITY" ["0"] = .error .typeError ∧
    mailboxInfo ⟨none⟩ "UIDVALIDITY" ["0"] ≠ .ok ["0"] := by
  refine ⟨rfl, ?_⟩
  intro h
  exact Except.noConfusion h

/-- C5 (amended): with no folder selected `mailbox_info` raises
`TypeError` instead of returning the default; after a successful fresh
select, `mailbox_info('UIDVALIDITY')` returns the transport's recorded
UIDVALIDITY response — non-empty whenever the transport reported a
non-empty value. -/
theorem mailboxInfo_amended :
    (∀ (k : String) (d : List String),
      mailboxInfo ⟨none⟩ k d = .error .typeError) ∧
    (∀ (tr : ImapTransport) (mb : String) (ro : Bool) (d : List String),
      replyOk (tr.selectReply mb ro) = true →
      mailboxInfo (connSelect tr ⟨none⟩ mb ro).2.1 "UIDVALIDITY" d =
        .ok (tr.response mb "UIDVALIDITY")) ∧
    (∀ (tr : ImapTransport) (mb : String) (ro : Bool) (d : List String),
      replyOk (tr.selectReply mb ro) = true →
      tr.response mb "UIDVALIDITY" ≠ [] →
      mailboxInfo (connSelect tr ⟨none⟩ mb ro).2.1 "UIDVALIDITY" d ≠ .ok []) := by
  have hmain : ∀ (tr : ImapTransport) (mb : String) (ro : Bool) (d : List String),
      replyOk (tr.selectReply mb ro) = true →
      mailboxInfo (connSelect tr ⟨none⟩ mb ro).2.1 "UIDVALIDITY" d =
        .ok (tr.response mb "UIDVALIDITY") := by
    intro tr mb ro d h
    have hstate : (connSelect tr ⟨none⟩ mb ro).2.1 =
        ⟨some ((mb, ro), tr.selectReply mb ro, mkInfo tr mb)⟩ := by
      unfold connSelect
      simp [h]
    rw [hstate]
    show Except.ok (dictGet (mkInfo tr mb) "UIDVALIDITY" d) =
      Except.ok (tr.response mb "UIDVALIDITY")
    simp [mkInfo, dictGet]
  refine ⟨fun k d => rfl, hmain, ?_⟩
  intro tr mb ro d h hne heq
  rw [hmain tr mb ro d h] at heq
  simp only [Except.ok.injEq] at heq
  exact hne heq

/-- C5 witness: the amended behaviour at concrete inputs (unselected
state, and a fresh successful select against `trAllOk`). -/
theorem mailboxInfo_amended_witness :
    mailboxInfo ⟨none⟩ "EXISTS" ["0"] = .error .typeError ∧
    mailboxInfo (connSelect trAllOk ⟨none⟩ "INBOX" false).2.1 "UIDVALIDITY" ["0"] =
      .ok ["13"] :=
  ⟨mailboxInfo_amended.1 "EXISTS" ["0"],
   mailboxInfo_amended.2.1 trAllOk "INBOX" false ["0"] (by decide)⟩

/-- C4: `remove(key)` never issues a STORE for the keyed message — the
attribute access `imap.store` fails, because `store` is neither among the
forwarded proxy methods installed in `__init__` nor a method of
`SharedImapConn` (or `threading.Thread`); moreover `key` is not used by
the body at all. -/
theorem mailboxRemove_broken :
    (∀ key : String, mailboxRemove key = .error .attributeError) ∧
    connHasAttr "store" = false ∧
    "store" ∉ forwardedMethods ∧
    (∀ k1 k2 : String, mailboxRemove k1 = mailboxRemove k2) := by
  refine ⟨fun _ => rfl, by decide, by decide, fun _ _ => rfl⟩

/-- C8: the bad-credentials path of `open`.  Without `throw`, `conn_error`
is recorded as "Bad username or password" and a falsy scoped-acquirable
sentinel is returned; but with `throw = IMAP_IOError` (what
`SharedImapMailbox.open_imap` actually passes), the deliberate raise is
re-caught by the `except (IMAP_IOError, IMAP4.error)` clause, which
overwrites `conn_error` with "An IMAP protocol error occurred" before the
bottom of the function re-raises — contradicting the claim that the
error is raised with the same message.  An uncaught `throw` class
(e.g. `ValueError`) does behave as claimed. -/
theorem unlockedOpen_bad_login :
    unlockedOpen none ("BAD", ["\"Sorry dude\""]) =
      (.sentinel ⟨false⟩, some "Bad username or password") ∧
    WithaBool.enter ⟨false⟩ = false ∧
    WithaBool.nonzero ⟨false⟩ = false ∧
    unlockedOpen (some .imapIOError) ("BAD", ["\"Sorry dude\""]) =
      (.raised .imapIOError "An IMAP protocol error occurred",
       some "An IMAP protocol error occurred") ∧
    unlockedOpen (some .valueError) ("BAD", ["\"Sorry dude\""]) =
      (.raised .valueError "Bad username or password",
       some "Bad username or password") := by
  exact ⟨rfl, rfl, rfl, rfl, rfl⟩

/-- Concatenating the first `k` chunk slices of size `cs` yields the first
`k * cs` bytes of the message. -/
theorem flatten_chunk_slices (msg : List Nat) (cs : Nat) :
    ∀ k : Nat,
      ((List.range k).map (fun c => ((msg.drop (c * cs)).take cs))).flatten =
        msg.take (k * cs) := by
  intro k
  induction k with
  | zero => simp
  | succ k ih =>
    rw [List.range_succ, List.map_append, List.flatten_append]
    simp only [List.map_cons, List.map_nil, List.flatten_cons, List.flatten_nil,
      List.append_nil, ih]
    rw [Nat.succ_mul, List.take_add]

/-- C3 counterexample: for a 1-byte message and `timeout = 1`, the code
issues `1 + 1 // 1024 = 1` partial fetch, while the claim's
`ceil(1/1024) + 1` equals `2`. -/
theorem chunkCount_not_ceil :
    chunkCount 1 1 = 1 ∧ (1 + (1 * 1024) - 1) / (1 * 1024) + 1 = 2 ∧
    chunkCount 1 1 ≠ (1 + (1 * 1024) - 1) / (1 * 1024) + 1 := by
  decide

/-- C3 (amended): with `timeout = t > 0` and reported size `s` equal to
the stored body length, `get` issues exactly `s / (t*1024) + 1` (that is,
`floor`, not `ceil`, plus one) partial-body fetches — this equals
`ceil(s/(t*1024)) + 1` exactly when the chunk size divides `s`, in
particular for a zero-byte message — and the concatenated chunks
reconstruct the full body, so a zero-byte message succeeds with empty
bytes and an exact-multiple size is harmless (the terminal chunk is
empty). -/
theorem get_chunking (t : Nat) (msg : List Nat) (s : Nat)
    (ht : 0 < t) (hs : s = msg.length) :
    chunkCount t s = s / (t * 1024) + 1 ∧
    (s % (t * 1024) = 0 → chunkCount t s = (s + (t * 1024) - 1) / (t * 1024) + 1) ∧
    getBody t msg s = msg := by
  have hcs : 0 < t * 1024 := by positivity
  refine ⟨by simp [chunkCount, Nat.add_comm], ?_, ?_⟩
  · intro hdiv
    obtain ⟨q, hq⟩ := Nat.dvd_of_mod_eq_zero hdiv
    subst hq
    have h1 : t * 1024 * q / (t * 1024) = q := by
      rw [Nat.mul_div_cancel_left _ hcs]
    have h2 : (t * 1024 * q + (t * 1024) - 1) / (t * 1024) = q := by
      have hsplit : t * 1024 * q + (t * 1024) - 1 =
          (t * 1024 - 1) + (t * 1024) * q := by omega
      rw [hsplit, Nat.add_mul_div_left _ _ hcs, Nat.div_eq_of_lt (by omega)]
      omega
    unfold chunkCount
    rw [h1, h2]
    omega
  · unfold getBody fetchChunks
    rw [flatten_chunk_slices]
    apply List.take_of_length_le
    subst hs
    show msg.length ≤ chunkCount t msg.length * (t * 1024)
    unfold chunkCount
    have hdm := Nat.div_add_mod msg.length (t * 1024)
    have hmod := Nat.mod_lt msg.length hcs
    have key : (1 + msg.length / (t * 1024)) * (t * 1024) =
        t * 1024 + t * 1024 * (msg.length / (t * 1024)) := by ring
    rw [key]
    omega

/-- C3 witness: a zero-byte message with the default 15s timeout issues
one fetch and yields empty bytes; a 2048-byte message at timeout 1 is an
exact multiple of the 1024-byte chunk size, where the code's count does
match `ceil + 1`. -/
theorem get_chunking_witness :
    chunkCount 15 0 = 1 ∧ getBody 15 [] 0 = [] ∧
    chunkCount 1 2048 = (2048 + (1 * 1024) - 1) / (1 * 1024) + 1 :=
  ⟨(get_chunking 15 [] 0 (by decide) rfl).1,
   (get_chunking 15 [] 0 (by decide) rfl).2.2,
   (get_chunking 1 (List.replicate 2048 0) 2048 (by decide)
      (List.length_replicate 2048 0).symm).2.1 (by decide)⟩

/-- A hex escape produced by `quote` always decodes back to its value. -/
theorem hexVal_hexDigitU : ∀ d : Nat, d < 16 → hexVal? (hexDigitU d) = some d := by
  decide

/-- `unquote` passes a non-`%` head character through. -/
theorem pyUnquote_cons_ne (c : Char) (l : List Char) (hc : ¬ c = '%') :
    pyUnquote (c :: l) = c :: pyUnquote l := by
  conv_lhs => unfold pyUnquote
  rw [if_neg hc]

/-- `unquote` decodes a well-formed `%XX` escape and resumes after it. -/
theorem pyUnquote_escape (d1 d2 : Nat) (c1 c2 : Char) (l : List Char)
    (h1 : hexVal? c1 = some d1) (h2 : hexVal? c2 = some d2) :
    pyUnquote ('%' :: c1 :: c2 :: l) = Char.ofNat (16 * d1 + d2) :: pyUnquote l := by
  have hstep : pyUnquote ('%' :: c1 :: c2 :: l) =
      (match hexVal? c1, hexVal? c2 with
       | some v1, some v2 => Char.ofNat (16 * v1 + v2) :: pyUnquote l
       | _, _ => '%' :: pyUnquote (c1 :: c2 :: l)) := rfl
  rw [hstep, h1, h2]

/-- `unquote` undoes `quote` on every byte string (every character of a
Python 2 `str` is a byte). -/
theorem pyUnquote_pyQuote (s : List Char) (h : ∀ c ∈ s, c.toNat < 256) :
    pyUnquote (pyQuote s) = s := by
  induction s with
  | nil => rfl
  | cons c rest ih =>
    have hc : c.toNat < 256 := h c (by simp)
    have hrest : ∀ x ∈ rest, x.toNat < 256 := fun x hx => h x (by simp [hx])
    show pyUnquote (pyQuote (c :: rest)) = c :: rest
    unfold pyQuote
    simp only [List.map_cons, List.flatten_cons]
    by_cases hsafe : isQuoteSafe c = true
    · rw [show quoteChar c = [c] from by unfold quoteChar; rw [if_pos hsafe]]
      have hcne : ¬ c = '%' := by
        intro hceq
        rw [hceq] at hsafe
        exact absurd hsafe (by decide)
      rw [List.singleton_append, pyUnquote_cons_ne c _ hcne]
      congr 1
      exact ih hrest
    · rw [show quoteChar c =
            ['%', hexDigitU (c.toNat / 16), hexDigitU (c.toNat % 16)]
          from by unfold quoteChar; rw [if_neg hsafe]]
      show pyUnquote ('%' :: hexDigitU (c.toNat / 16) ::
        hexDigitU (c.toNat % 16) :: (rest.map quoteChar).flatten) = c :: rest
      rw [pyUnquote_escape (c.toNat / 16) (c.toNat % 16) _ _ _
            (hexVal_hexDigitU _ (by omega)) (hexVal_hexDigitU _ (by omega)),
          show 16 * (c.toNat / 16) + c.toNat % 16 = c.toNat from
            Nat.div_add_mod _ _,
          Char.ofNat_toNat]
      congr 1
      exact ih hrest

/-- C9: `get_msg_ptr` concatenates the fixed-width mailbox id with the
percent-encoded key, and `get_file_by_ptr`'s inverse (strip
`MBX_ID_LEN` characters, url-unquote) recovers exactly the key, so the
round trip feeds `get_file` the original key. -/
theorem msg_ptr_roundtrip {α : Type} (getFile : List Char → α)
    (mbxId key : List Char)
    (hlen : mbxId.length = MBX_ID_LEN) (hkey : ∀ c ∈ key, c.toNat < 256) :
    getMsgPtr mbxId key = mbxId ++ pyQuote key ∧
    ptrKey (getMsgPtr mbxId key) = key ∧
    getFileByPtr getFile (getMsgPtr mbxId key) = getFile key := by
  have hptr : ptrKey (getMsgPtr mbxId key) = key := by
    unfold ptrKey getMsgPtr
    rw [← hlen, List.drop_left, pyUnquote_pyQuote key hkey]
  exact ⟨rfl, hptr, by unfold getFileByPtr; rw [hptr]⟩

/-- C9 witness: the spec's concrete scenario, id `"0000"` and key
`"a.2s"`. -/
theorem msg_ptr_roundtrip_witness :
    getFileByPtr (fun l => l) (getMsgPtr "0000".data "a.2s".data) = "a.2s".data :=
  (msg_ptr_roundtrip (fun l => l) "0000".data "a.2s".data (by decide)
    (by decide)).2.2

/-- Every digit value below 36 decodes back under `int(·, 36)`. -/
theorem digitVal_baseDigitChar36 :
    ∀ d : Nat, d < 36 → digitVal? 36 (baseDigitChar d) = some d := by
  decide

/-- Every digit value below 10 decodes back under `int(·)`. -/
theorem digitVal_baseDigitChar10 :
    ∀ d : Nat, d < 10 → digitVal? 10 (baseDigitChar d) = some d := by
  decide

/-- Digit characters are never the key separator `.`. -/
theorem baseDigitChar_ne_dot :
    ∀ d : Nat, d < 36 → ¬ baseDigitChar d = '.' := by
  decide

/-- Folding the digits emitted by `baseDigitsGo` extends the accumulator
value exactly as `pushBGo` describes. -/
theorem digitsFold_baseDigitsGo (base : Nat) (hb : 2 ≤ base)
    (hdig : ∀ d : Nat, d < base → digitVal? base (baseDigitChar d) = some d) :
    ∀ (fuel n : Nat) (acc : List Char) (a : Nat), n ≤ fuel →
      digitsFold base a (baseDigitsGo base fuel n acc) =
        digitsFold base (pushBGo base fuel a n) acc := by
  intro fuel
  induction fuel with
  | zero =>
    intro n acc a hn
    have hz : n = 0 := by omega
    subst hz
    rfl
  | succ fuel ih =>
    intro n acc a hn
    by_cases hz : n = 0
    · subst hz
      rfl
    · rw [show baseDigitsGo base (fuel + 1) n acc =
            baseDigitsGo base fuel (n / base) (baseDigitChar (n % base) :: acc)
          from by
            conv_lhs => unfold baseDigitsGo
            rw [if_neg hz],
          show pushBGo base (fuel + 1) a n =
            base * pushBGo base fuel a (n / base) + n % base
          from by
            conv_lhs => unfold pushBGo
            rw [if_neg hz]]
      have hdn : n / base ≤ fuel := by
        have h1 : n / base < n := Nat.div_lt_self (Nat.pos_of_ne_zero hz) hb
        omega
      rw [ih (n / base) (baseDigitChar (n % base) :: acc) a hdn]
      unfold digitsFold
      rw [List.foldl_cons, hdig (n % base) (Nat.mod_lt n (by omega))]
      rfl

/-- `pushBGo` with zero accumulator recovers the value. -/
theorem pushBGo_zero (base : Nat) (hb : 2 ≤ base) :
    ∀ fuel n : Nat, n ≤ fuel → pushBGo base fuel 0 n = n := by
  intro fuel
  induction fuel with
  | zero =>
    intro n hn
    have hz : n = 0 := by omega
    subst hz
    rfl
  | succ fuel ih =>
    intro n hn
    by_cases hz : n = 0
    · subst hz
      rfl
    · rw [show pushBGo base (fuel + 1) 0 n =
            base * pushBGo base fuel 0 (n / base) + n % base
          from by
            conv_lhs => unfold pushBGo
            rw [if_neg hz]]
      have hdn : n / base ≤ fuel := by
        have h1 : n / base < n := Nat.div_lt_self (Nat.pos_of_ne_zero hz) hb
        omega
      rw [ih (n / base) hdn]
      exact Nat.div_add_mod n base

/-- Characters emitted by `baseDigitsGo` are digit characters, unless
they come from the accumulator. -/
theorem baseDigitsGo_chars (base : Nat) (hb : 2 ≤ base) :
    ∀ (fuel n : Nat) (acc : List Char) (c : Char),
      c ∈ baseDigitsGo base fuel n acc →
      c ∈ acc ∨ ∃ d : Nat, d < base ∧ c = baseDigitChar d := by
  intro fuel
  induction fuel with
  | zero => intro n acc c hc; exact Or.inl hc
  | succ fuel ih =>
    intro n acc c hc
    by_cases hz : n = 0
    · subst hz
      exact Or.inl hc
    · rw [show baseDigitsGo base (fuel + 1) n acc =
            baseDigitsGo base fuel (n / base) (baseDigitChar (n % base) :: acc)
          from by
            conv_lhs => unfold baseDigitsGo
            rw [if_neg hz]] at hc
      rcases ih (n / base) (baseDigitChar (n % base) :: acc) c hc with hm | hd
      · rcases List.mem_cons.mp hm with hec | hacc
        · exact Or.inr ⟨n % base, Nat.mod_lt n (by omega), hec⟩
        · exact Or.inl hacc
      · exact Or.inr hd

/-- `baseDigitsGo` only grows the accumulator. -/
theorem baseDigitsGo_length (base : Nat) :
    ∀ (fuel n : Nat) (acc : List Char),
      acc.length ≤ (baseDigitsGo base fuel n acc).length := by
  intro fuel
  induction fuel with
  | zero => intro n acc; exact Nat.le_refl _
  | succ fuel ih =>
    intro n acc
    by_cases hz : n = 0
    · subst hz
      exact Nat.le_refl _
    · rw [show baseDigitsGo base (fuel + 1) n acc =
            baseDigitsGo base fuel (n / base) (baseDigitChar (n % base) :: acc)
          from by
            conv_lhs => unfold baseDigitsGo
            rw [if_neg hz]]
      calc acc.length ≤ (baseDigitChar (n % base) :: acc).length := by simp
        _ ≤ _ := ih (n / base) (baseDigitChar (n % base) :: acc)

/-- The base-36 digits of `n` fold back to `n`. -/
theorem digitsFold_b36 (n : Nat) : digitsFold 36 0 (b36 n).data = n := by
  by_cases hz : n = 0
  · subst hz
    decide
  · unfold b36
    rw [if_neg hz]
    show digitsFold 36 0 (baseDigitsGo 36 n n []) = n
    rw [digitsFold_baseDigitsGo 36 (by omega) digitVal_baseDigitChar36
          n n [] 0 (Nat.le_refl n)]
    show pushBGo 36 n 0 n = n
    exact pushBGo_zero 36 (by omega) n n (Nat.le_refl n)

/-- `int(decStr u)` recovers `u`. -/
theorem intDec_decStr (u : Nat) : intDec (decStr u) = u := by
  by_cases hz : u = 0
  · subst hz
    decide
  · unfold intDec decStr
    rw [if_neg hz]
    show digitsFold 10 0 (baseDigitsGo 10 u u []) = u
    rw [digitsFold_baseDigitsGo 10 (by omega) digitVal_baseDigitChar10
          u u [] 0 (Nat.le_refl u)]
    exact pushBGo_zero 10 (by omega) u u (Nat.le_refl u)

/-- Every character of a `b36` rendering is a base-36 digit character. -/
theorem b36_chars (n : Nat) :
    ∀ c ∈ (b36 n).data, ∃ d : Nat, d < 36 ∧ c = baseDigitChar d := by
  intro c hc
  by_cases hz : n = 0
  · subst hz
    have hc0 : c = '0' := by simpa [b36] using hc
    exact ⟨0, by omega, by rw [hc0]; decide⟩
  · unfold b36 at hc
    rw [if_neg hz] at hc
    rcases baseDigitsGo_chars 36 (by omega) n n [] c hc with hm | hd
    · cases hm
    · exact hd

/-- `int(b36(n), 36)` succeeds (non-empty, all valid digits) and returns
`n`: every emitted key component is a valid base-36 integer. -/
theorem parseInt_b36 (n : Nat) : parseInt? 36 (b36 n) = some n := by
  by_cases hz : n = 0
  · subst hz
    decide
  · have hne : (b36 n).data ≠ [] := by
      unfold b36
      rw [if_neg hz]
      show baseDigitsGo 36 n n [] ≠ []
      obtain ⟨m, hm⟩ : ∃ m, n = m + 1 := ⟨n - 1, by omega⟩
      subst hm
      rw [show baseDigitsGo 36 (m + 1) (m + 1) [] =
            baseDigitsGo 36 m ((m + 1) / 36)
              [baseDigitChar ((m + 1) % 36)]
          from by
            conv_lhs => unfold baseDigitsGo
            rw [if_neg (by omega)]]
      intro hcontra
      have hlen := baseDigitsGo_length 36 m ((m + 1) / 36)
        [baseDigitChar ((m + 1) % 36)]
      rw [hcontra] at hlen
      simp at hlen
    have hall : (b36 n).data.all (fun c => (digitVal? 36 c).isSome) = true := by
      rw [List.all_eq_true]
      intro c hcmem
      obtain ⟨d, hd, hcd⟩ := b36_chars n c hcmem
      rw [hcd, digitVal_baseDigitChar36 d hd]
      rfl
    unfold parseInt?
    rw [if_pos ⟨hne, hall⟩, digitsFold_b36]

/-- `dropWhile` skips a prefix on which the predicate holds everywhere. -/
theorem dropWhile_append_of_all {p : Char → Bool} :
    ∀ (l1 l2 : List Char), (∀ x ∈ l1, p x = true) →
      (l1 ++ l2).dropWhile p = l2.dropWhile p := by
  intro l1
  induction l1 with
  | nil => intro l2 _; rfl
  | cons x xs ih =>
    intro l2 h
    rw [List.cons_append, List.dropWhile_cons, if_pos (h x (by simp))]
    exact ih l2 (fun y hy => h y (by simp [hy]))

/-- `keyUid` recovers the raw UID from an emitted key: the first `.`
splits right after the (dot-free) validity component. -/
theorem keyUid_of_key (v u : Nat) : keyUid (b36 v ++ "." ++ b36 u) = u := by
  unfold keyUid
  rw [String.data_append, String.data_append,
      show (".".data : List Char) = ['.'] from rfl,
      List.append_assoc,
      dropWhile_append_of_all (b36 v).data (['.'] ++ (b36 u).data) ?hall]
  case hall =>
    intro x hx
    obtain ⟨d, hd, hxd⟩ := b36_chars v x hx
    rw [hxd]
    simp [baseDigitChar_ne_dot d hd]
  rw [show ((['.'] ++ (b36 u).data).dropWhile fun c => !(c = '.')) =
        '.' :: (b36 u).data
      from by
        rw [List.singleton_append, List.dropWhile_cons, if_neg (by simp)],
      show ('.' :: (b36 u).data).drop 1 = (b36 u).data from rfl]
  exact digitsFold_b36 u

/-- A map whose function fixes every member is the identity. -/
theorem map_self_of_fixed {h : String → String} :
    ∀ l : List String, (∀ s ∈ l, h s = s) → l.map h = l := by
  intro l
  induction l with
  | nil => intro _; rfl
  | cons x xs ih =>
    intro hfix
    rw [List.map_cons, hfix x (by simp), ih (fun y hy => hfix y (by simp [hy]))]

/-- C2 counterexample: for UIDs 10 and 2 under UIDVALIDITY 1, `sorted`
orders the reply tokens as strings (`"10" < "2"`), so the keys come out
`["1.a", "1.2"]` — UID order (10, 2), not ascending by raw UID. -/
theorem iterkeys_not_uid_sorted :
    iterkeysModel (decStr 1) [decStr 10, decStr 2] = ["1.a", "1.2"] ∧
    ¬ List.Sorted (· ≤ ·)
        ((iterkeysModel (decStr 1) [decStr 10, decStr 2]).map keyUid) := by
  constructor
  · rfl
  · decide

/-- C2 (amended): for every folder UIDVALIDITY `v` and UID set, `iterkeys`
emits exactly one key `b36(v) ++ "." ++ b36(uid)` per UID (a permutation
of the UID list); each emitted key's components are valid base-36
integers with the first decoding to `v` and the second to the raw UID;
and the keys are emitted in ascending *bytewise-lexicographic* order of
the UID's decimal reply token — which coincides with ascending numeric
UID order only when the tokens have equal length. -/
theorem iterkeys_keys (v : Nat) (uids : List Nat) :
    (iterkeysModel (decStr v) (uids.map decStr)).Perm
      (uids.map (fun u => b36 v ++ "." ++ b36 u)) ∧
    (∀ k ∈ iterkeysModel (decStr v) (uids.map decStr),
      ∃ u ∈ uids, k = b36 v ++ "." ++ b36 u ∧
        parseInt? 36 (b36 v) = some v ∧ parseInt? 36 (b36 u) = some u ∧
        keyUid k = u) ∧
    List.Sorted strLe
      ((iterkeysModel (decStr v) (uids.map decStr)).map
        (fun k => decStr (keyUid k))) := by
  have hmodel : iterkeysModel (decStr v) (uids.map decStr) =
      (pySorted (uids.map decStr)).map
        (fun k => b36 v ++ "." ++ b36 (intDec k)) := by
    unfold iterkeysModel
    rw [intDec_decStr]
  have hmem : ∀ s ∈ pySorted (uids.map decStr), ∃ u ∈ uids, s = decStr u := by
    intro s hs
    have hsd : s ∈ uids.map decStr := (List.mem_insertionSort strLe).mp hs
    obtain ⟨u, hu, hueq⟩ := List.mem_map.mp hsd
    exact ⟨u, hu, hueq.symm⟩
  refine ⟨?_, ?_, ?_⟩
  · rw [hmodel]
    have hperm : (pySorted (uids.map decStr)).Perm (uids.map decStr) :=
      List.perm_insertionSort strLe (uids.map decStr)
    refine (hperm.map (fun k => b36 v ++ "." ++ b36 (intDec k))).trans ?_
    rw [List.map_map]
    have hfun : ((fun k => b36 v ++ "." ++ b36 (intDec k)) ∘ decStr) =
        (fun u => b36 v ++ "." ++ b36 u) := by
      funext u
      simp only [Function.comp]
      rw [intDec_decStr]
    rw [hfun]
  · intro k hk
    rw [hmodel] at hk
    obtain ⟨s, hs, hks⟩ := List.mem_map.mp hk
    obtain ⟨u, hu, hsu⟩ := hmem s hs
    subst hsu
    have hkeq : k = b36 v ++ "." ++ b36 u := by
      rw [← hks, intDec_decStr]
    exact ⟨u, hu, hkeq, parseInt_b36 v, parseInt_b36 u,
      by rw [hkeq]; exact keyUid_of_key v u⟩
  · rw [hmodel, List.map_map]
    have hfix : ∀ s ∈ pySorted (uids.map decStr),
        ((fun k => decStr (keyUid k)) ∘
          (fun k => b36 v ++ "." ++ b36 (intDec k))) s = s := by
      intro s hs
      obtain ⟨u, hu, hsu⟩ := hmem s hs
      subst hsu
      simp only [Function.comp]
      rw [intDec_decStr, keyUid_of_key]
    rw [map_self_of_fixed (pySorted (uids.map decStr)) hfix]
    exact List.sorted_insertionSort strLe (uids.map decStr)
